import Mathlib

/-
  Verification development for the SCORM ingestion pipeline of the lms-kluch
  repository.  The definitions below are shallow embeddings of the Python
  functions in app/services/scorm_parser.py, app/api/v1/endpoints/scorm.py and
  app/crud/lesson.py; line numbers in comments refer to those files.  Strings
  are modelled by Lean String / List Char, bytes by Nat (values < 256), the
  filesystem by explicit path lists or membership oracles, and Python library
  primitives that the repository merely calls (codecs, urllib unquote, md5)
  by explicitly quantified function parameters.
-/

namespace Scorm

/-! ## Generic character/string helpers used by several embeddings -/

/-- Python `\w` on ASCII: letters, digits and underscore (used for `\b`). -/
def isWordChar (c : Char) : Bool :=
  c.isAlphanum || c = '_'

/-- Python `\s` on ASCII: space, tab, newline, carriage return, vertical tab,
form feed. -/
def isPyWs (c : Char) : Bool :=
  c = ' ' || c = '\t' || c = '\n' || c = '\r' || c = '\x0b' || c = '\x0c'

/-- Match a literal pattern (already lowercased) case-insensitively against the
head of the input; return the remainder on success. -/
def dropLitCi : List Char → List Char → Option (List Char)
  | [], s => some s
  | _ :: _, [] => none
  | p :: ps, c :: cs => if c.toLower = p then dropLitCi ps cs else none

/-- Match a literal pattern case-sensitively against the head of the input. -/
def dropLit : List Char → List Char → Option (List Char)
  | [], s => some s
  | _ :: _, [] => none
  | p :: ps, c :: cs => if c = p then dropLit ps cs else none

/-- Split at the first (case-insensitive) occurrence of a literal: returns the
text before the occurrence and the remainder after it. -/
def splitFirstCi (lit : List Char) : List Char → Option (List Char × List Char)
  | [] =>
    match dropLitCi lit [] with
    | some r => some ([], r)
    | none => none
  | c :: cs =>
    match dropLitCi lit (c :: cs) with
    | some rest => some ([], rest)
    | none =>
      match splitFirstCi lit cs with
      | some pr => some (c :: pr.1, pr.2)
      | none => none

/-- Split at the first occurrence of a single character: returns the text
before it (which therefore does not contain the character) and the remainder
after it. -/
def splitAtChar (ch : Char) : List Char → Option (List Char × List Char)
  | [] => none
  | c :: cs =>
    if c = ch then some ([], cs)
    else
      match splitAtChar ch cs with
      | some pr => some (c :: pr.1, pr.2)
      | none => none

/-- First `some` produced by `f` over a list, in order. -/
def firstSome (f : α → Option β) : List α → Option β
  | [] => none
  | a :: rest =>
    match f a with
    | some b => some b
    | none => firstSome f rest

/-- Head of the list is an ASCII word character (`\b` fails after a tag name
exactly when this holds). -/
def headIsWordChar : List Char → Bool
  | [] => false
  | c :: _ => isWordChar c

/-! ## Path helpers (pathlib operations used by the source, modelled on
plain separator-joined strings; `.` normalisation of pathlib is not needed by
any input considered here) -/

/-- Case-sensitive prefix test. -/
def strStartsWith (s pre : String) : Bool :=
  (dropLit pre.data s.data).isSome

/-- Case-sensitive suffix test. -/
def strEndsWith (s suffix : String) : Bool :=
  (dropLit suffix.data.reverse s.data.reverse).isSome

/-- `str.lower` restricted to ASCII case mapping. -/
def strLower (s : String) : String :=
  String.mk (s.data.map Char.toLower)

/-- `PurePosixPath.__truediv__`: joining an absolute second operand replaces
the first. -/
def pathJoin (a b : String) : String :=
  if strStartsWith b "/" then b else a ++ "/" ++ b

/-- `PurePath.name`: the final path component (text after the last slash). -/
def pathBaseName (p : String) : String :=
  String.mk ((p.data.reverse.takeWhile (fun c => c ≠ '/')).reverse)

/-- `PurePath.parent` of a separator-joined string. -/
def pathParent (p : String) : String :=
  match splitAtChar '/' p.data.reverse with
  | none => "."
  | some pr => if pr.2 = [] then "/" else String.mk pr.2.reverse

/-- `PurePath.stem` and `PurePath.suffix` of a file name: the suffix is
`name[i:]` for `i` the index of the last dot, provided `0 < i < len - 1`
(CPython implementation); otherwise the suffix is empty. -/
def pathSplitExt (name : String) : String × String :=
  match splitAtChar '.' name.data.reverse with
  | none => (name, "")
  | some pr =>
    if pr.1 = [] || pr.2 = [] then (name, "")
    else (String.mk pr.2.reverse, String.mk ('.' :: pr.1.reverse))

/-- `str.lstrip('/')`. -/
def lstripSlashes (s : String) : String :=
  String.mk (s.data.dropWhile (fun c => c = '/'))

/-- Case-sensitive substring test on character lists. -/
def containsSubList (needle : List Char) : List Char → Bool
  | [] => (dropLit needle []).isSome
  | c :: cs => (dropLit needle (c :: cs)).isSome || containsSubList needle cs

/-- Case-sensitive substring test. -/
def containsSub (needle hay : String) : Bool :=
  containsSubList needle.data hay.data

/-! ## C2: encoding candidate lists

scorm_parser.py lines 24-25: the list tried by `parse_manifest`, and lines
248-256: the list tried by `detect_file_encoding`. -/

/-- Encoding candidates of `parse_manifest` (scorm_parser.py lines 24-25), in
source order. -/
def parse_manifest_encodings : List String :=
  ["utf-8", "utf-8-sig", "cp1251", "windows-1251",
   "iso-8859-1", "latin-1", "koi8-r", "cp866", "maccyrillic"]

/-- Encoding candidates of `detect_file_encoding` (scorm_parser.py lines
248-256), in source order. -/
def detect_candidate_encodings : List String :=
  ["utf-8", "utf-8-sig", "cp1251", "windows-1251",
   "koi8-r", "koi8-u",
   "iso-8859-1", "iso-8859-5", "iso-8859-15",
   "cp866", "ibm866",
   "maccyrillic",
   "latin-1"]

/-- The `for encoding in encodings: try ... break / except ... continue` loop
of `parse_manifest` (scorm_parser.py lines 30-42): `ok e` abstracts "decoding
the manifest file with `e` and XML-parsing the result both succeed". -/
def parseManifestTryLoop (ok : String → Bool) : List String → Option String
  | [] => none
  | e :: rest => if ok e then some e else parseManifestTryLoop ok rest

/-- The encoding recorded by `parse_manifest` (scorm_parser.py lines 27-49):
the loop result, or the `errors='ignore'` fallback marker of lines 44-49. -/
def parseManifestUsedEncoding (ok : String → Bool) : String :=
  match parseManifestTryLoop ok parse_manifest_encodings with
  | some e => e
  | none => "utf-8 (ignore errors)"

theorem parseManifestTryLoop_eq_find (ok : String → Bool) :
    ∀ l : List String, parseManifestTryLoop ok l = l.find? ok := by
  intro l
  induction l with
  | nil => rfl
  | cons e rest ih =>
    by_cases h : ok e
    · simp [parseManifestTryLoop, List.find?, h]
    · simp only [parseManifestTryLoop, List.find?]
      rw [if_neg h, ih]
      cases hok : ok e with
      | true => exact absurd hok h
      | false => rfl

/-! ## C3: manifest location (scorm_parser.py lines 135-155)

The extracted tree is modelled as `files`, the list of existing regular files
(full path strings) in `Path.rglob` traversal order; `root` is the extraction
directory. -/

/-- fnmatch of the fixed pattern `*manifest*.xml` against a file name.  Since
`"manifest"` contains no dot, a match is exactly: the name ends in `.xml` and
contains `"manifest"` before that suffix. -/
def matchesManifestGlob (name : String) : Bool :=
  (dropLit ['l', 'm', 'x', '.'] name.data.reverse).isSome &&
  containsSubList "manifest".data ((name.data.reverse.drop 4).reverse)

/-- Manifest search of `extract_scorm_package` (scorm_parser.py lines
136-154): (a) the exact root-level path, else (b) the first recursively found
file named `imsmanifest.xml`, else (c) the first recursively found file
matching `*manifest*.xml`; `none` models reaching the raise at line 155. -/
def locateManifest (root : String) (files : List String) : Option String :=
  let exact := root ++ "/imsmanifest.xml"
  if exact ∈ files then some exact
  else
    match files.find? (fun f => pathBaseName f == "imsmanifest.xml") with
    | some f => some f
    | none => files.find? (fun f => matchesManifestGlob (pathBaseName f))

/-! ## C9: detect_file_encoding (scorm_parser.py lines 245-286)

Bytes are Nat values < 256.  The Python codecs the source calls are not part
of the repository; they are abstracted by a decode oracle, except for
iso-8859-1 / latin-1, whose decoding is total and is modelled concretely
(every byte maps to the code point of the same value). -/

/-- Total iso-8859-1 / latin-1 decoding: byte value = code point. -/
def decodeLatin1 (bs : List Nat) : List Char :=
  bs.map (fun b => Char.ofNat (b % 256))

/-- Decode oracle for the candidate loop: the latin-1 family is concrete and
total; every other codec is an arbitrary parameter (`none` = UnicodeDecodeError). -/
def scormDecode (otherDec : String → List Nat → Option (List Char))
    (enc : String) (bs : List Nat) : Option (List Char) :=
  if enc = "iso-8859-1" || enc = "latin-1" then some (decodeLatin1 bs)
  else otherDec enc bs

/-- The cyrillic test of line 275.  The `c.isalpha()` guard of the source is
redundant there: every code point in the range of the comparison (U+0410 to
U+044F) is alphabetic, so the test reduces to a range check. -/
def hasCyrillic (cs : List Char) : Bool :=
  cs.any (fun c => 1040 ≤ c.toNat && c.toNat ≤ 1103)

/-- The candidate loop of `detect_file_encoding` (scorm_parser.py lines
268-282) including the terminal fallback return of line 282. -/
def detectEncLoop (dec : String → List Nat → Option (List Char))
    (sample : List Nat) : List String → String × String
  | [] => ("utf-8", "Fallback")
  | e :: rest =>
    match dec e sample with
    | some decoded =>
      if hasCyrillic decoded then (e, "Cyrillic detected") else (e, "Success")
    | none => detectEncLoop dec sample rest

/-- `detect_file_encoding` on a successfully read byte sample (scorm_parser.py
lines 259-282): BOM check, then the candidate loop over the first 1000 bytes. -/
def detect_file_encoding (dec : String → List Nat → Option (List Char))
    (raw : List Nat) : String × String :=
  if raw.take 3 = [0xEF, 0xBB, 0xBF] then ("utf-8-sig", "BOM detected")
  else detectEncLoop dec (raw.take 1000) detect_candidate_encodings

/-- If some candidate in the list decodes, the loop returns that or an earlier
candidate, never the fallback. -/
theorem detectEncLoop_reason_of_hit (dec : String → List Nat → Option (List Char))
    (sample : List Nat) :
    ∀ l : List String, (∃ e ∈ l, (dec e sample).isSome) →
      (detectEncLoop dec sample l).2 = "Cyrillic detected" ∨
      (detectEncLoop dec sample l).2 = "Success" := by
  intro l
  induction l with
  | nil => rintro ⟨e, he, _⟩; exact absurd he (List.not_mem_nil e)
  | cons a rest ih =>
    rintro ⟨e, he, hdec⟩
    cases hda : dec a sample with
    | some decoded =>
      by_cases hc : hasCyrillic decoded
      · left; simp [detectEncLoop, hda, hc]
      · right; simp [detectEncLoop, hda, hc]
    | none =>
      have herest : e ∈ rest := by
        rcases List.mem_cons.mp he with h | h
        · subst h; rw [hda] at hdec; exact absurd hdec (by simp)
        · exact h
      have := ih ⟨e, herest, hdec⟩
      simpa [detectEncLoop, hda] using this

/-- A successful `find?` splits the list at the found element, with every
earlier element failing the test. -/
theorem find?_eq_some_split {α : Type} {p : α → Bool} {b : α} :
    ∀ l : List α, l.find? p = some b →
      p b = true ∧ ∃ l₁ l₂, l = l₁ ++ b :: l₂ ∧ ∀ x ∈ l₁, p x = false := by
  intro l
  induction l with
  | nil => intro h; simp [List.find?] at h
  | cons a rest ih =>
    intro h
    cases hpa : p a with
    | true =>
      rw [List.find?_cons_of_pos rest hpa] at h
      obtain rfl : a = b := by injection h
      exact ⟨hpa, [], rest, rfl, by intro x hx; exact absurd hx (List.not_mem_nil x)⟩
    | false =>
      rw [List.find?_cons_of_neg rest (by simp [hpa])] at h
      obtain ⟨hb, l₁, l₂, hsplit, hfail⟩ := ih h
      refine ⟨hb, a :: l₁, l₂, by rw [hsplit]; rfl, ?_⟩
      intro x hx
      rcases List.mem_cons.mp hx with h | h
      · subst h; exact hpa
      · exact hfail x h

/-- C2 (counterexample): `parse_manifest` does not try the same encoding
candidate list as `detect_file_encoding` — its list has 9 entries against 13,
a different order from the fifth entry on, and lacks koi8-u, iso-8859-5,
iso-8859-15 and ibm866. -/
theorem c2_encoding_lists_differ :
    parse_manifest_encodings ≠ detect_candidate_encodings ∧
    parse_manifest_encodings.length = 9 ∧
    detect_candidate_encodings.length = 13 ∧
    parse_manifest_encodings.get? 4 = some "iso-8859-1" ∧
    detect_candidate_encodings.get? 4 = some "koi8-r" ∧
    "koi8-u" ∉ parse_manifest_encodings ∧
    "koi8-u" ∈ detect_candidate_encodings := by
  decide

/-- C2 (amended): `parse_manifest` iterates its own fixed candidate list
(utf-8, utf-8-sig, cp1251, windows-1251, iso-8859-1, latin-1, koi8-r, cp866,
maccyrillic) — shorter than and ordered differently from the
`detect_file_encoding` list — and the first encoding of that list for which
decoding and XML parsing both succeed is the one used. -/
theorem c2_parse_manifest_first_encoding_wins (ok : String → Bool) :
    parse_manifest_encodings ≠ detect_candidate_encodings ∧
    ∀ e, parseManifestTryLoop ok parse_manifest_encodings = some e →
      parseManifestUsedEncoding ok = e ∧ ok e = true ∧
      ∃ l₁ l₂, parse_manifest_encodings = l₁ ++ e :: l₂ ∧ ∀ x ∈ l₁, ok x = false := by
  refine ⟨by decide, ?_⟩
  intro e he
  have hused : parseManifestUsedEncoding ok = e := by
    unfold parseManifestUsedEncoding
    rw [he]
  rw [parseManifestTryLoop_eq_find] at he
  obtain ⟨hb, l₁, l₂, hsplit, hfail⟩ := find?_eq_some_split _ he
  exact ⟨hused, hb, l₁, l₂, hsplit, hfail⟩

theorem c2_parse_manifest_first_encoding_wins_witness :
    parseManifestUsedEncoding (fun e => e == "cp1251") = "cp1251" ∧
    (fun e => e == "cp1251") "cp1251" = true ∧
    ∃ l₁ l₂, parse_manifest_encodings = l₁ ++ "cp1251" :: l₂ ∧
      ∀ x ∈ l₁, (fun e => e == "cp1251") x = false :=
  (c2_parse_manifest_first_encoding_wins (fun e => e == "cp1251")).2 "cp1251" (by decide)

/-- C3: the manifest search tries (a) the exact root-level path, then (b) the
first recursively found file named `imsmanifest.xml`, then (c) the first
recursively found `*manifest*.xml` file, and reports not-found exactly when
none of the three exists. -/
theorem c3_manifest_search_order (root : String) (files : List String) :
    ((root ++ "/imsmanifest.xml") ∈ files →
      locateManifest root files = some (root ++ "/imsmanifest.xml")) ∧
    ((root ++ "/imsmanifest.xml") ∉ files →
      ∀ f, files.find? (fun g => pathBaseName g == "imsmanifest.xml") = some f →
        locateManifest root files = some f) ∧
    ((root ++ "/imsmanifest.xml") ∉ files →
      files.find? (fun g => pathBaseName g == "imsmanifest.xml") = none →
      locateManifest root files =
        files.find? (fun g => matchesManifestGlob (pathBaseName g))) ∧
    (locateManifest root files = none ↔
      ((root ++ "/imsmanifest.xml") ∉ files ∧
       (∀ f ∈ files, ¬ pathBaseName f = "imsmanifest.xml") ∧
       (∀ f ∈ files, matchesManifestGlob (pathBaseName f) = false))) := by
  unfold locateManifest
  by_cases hmem : (root ++ "/imsmanifest.xml") ∈ files
  · refine ⟨fun _ => by simp [hmem], fun h => absurd hmem h, fun h => absurd hmem h, ?_⟩
    simp [hmem]
  · refine ⟨fun h => absurd h hmem, ?_, ?_, ?_⟩
    · intro _ f hf
      simp only [if_neg hmem, hf]
    · intro _ hnone
      simp only [if_neg hmem, hnone]
    · cases hb : files.find? (fun g => pathBaseName g == "imsmanifest.xml") with
      | some f =>
        simp only [if_neg hmem, hb]
        constructor
        · intro h; exact absurd h (by simp)
        · rintro ⟨-, hbase, -⟩
          exfalso
          have hf : f ∈ files := List.mem_of_find?_eq_some hb
          have hpf := List.find?_some hb
          exact hbase f hf (by simpa using hpf)
      | none =>
        simp only [if_neg hmem, hb]
        rw [List.find?_eq_none] at hb
        constructor
        · intro hg
          rw [List.find?_eq_none] at hg
          refine ⟨hmem, ?_, ?_⟩
          · intro f hf
            have := hb f hf
            simpa using this
          · intro f hf
            have := hg f hf
            simpa using this
        · rintro ⟨-, -, hglob⟩
          rw [List.find?_eq_none]
          intro f hf
          simp [hglob f hf]

theorem c3_manifest_search_order_witness :
    locateManifest "r" ["r/a/imsmanifest.xml", "r/b/xmanifest.xml"] =
      some "r/a/imsmanifest.xml" :=
  (c3_manifest_search_order "r" ["r/a/imsmanifest.xml", "r/b/xmanifest.xml"]).2.1
    (by decide) "r/a/imsmanifest.xml" (by decide)

/-- C9: on any byte sample, `detect_file_encoding` returns from the BOM check
or from inside the candidate loop — iso-8859-1 decodes every byte sequence, so
the terminal fallback branch is unreachable and the reason is always "BOM
detected", "Cyrillic detected" or "Success". -/
theorem c9_detect_encoding_never_fallback
    (otherDec : String → List Nat → Option (List Char)) (raw : List Nat) :
    ((detect_file_encoding (scormDecode otherDec) raw).2 = "BOM detected" ∨
     (detect_file_encoding (scormDecode otherDec) raw).2 = "Cyrillic detected" ∨
     (detect_file_encoding (scormDecode otherDec) raw).2 = "Success") ∧
    (detect_file_encoding (scormDecode otherDec) raw).2 ≠ "Fallback" := by
  have hloop := detectEncLoop_reason_of_hit (scormDecode otherDec) (raw.take 1000)
    detect_candidate_encodings
    ⟨"iso-8859-1", by decide, by simp [scormDecode]⟩
  have hmain : (detect_file_encoding (scormDecode otherDec) raw).2 = "BOM detected" ∨
      (detect_file_encoding (scormDecode otherDec) raw).2 = "Cyrillic detected" ∨
      (detect_file_encoding (scormDecode otherDec) raw).2 = "Success" := by
    unfold detect_file_encoding
    by_cases hb : raw.take 3 = [0xEF, 0xBB, 0xBF]
    · simp [hb]
    · simp only [if_neg hb]
      rcases hloop with h | h
      · exact Or.inr (Or.inl h)
      · exact Or.inr (Or.inr h)
  refine ⟨hmain, ?_⟩
  rcases hmain with h | h | h <;> rw [h] <;> decide

/-! ## C1: temporary upload file lifecycle (endpoints/scorm.py lines 41-224)

Validation (lines 41-49) checks only that the filename is non-empty and that
its suffix (lowercased) is `.zip`, `.scorm` or `.pif`; the upload path is
then `Path(temp_dir) / file.filename` (line 53).  With pathlib semantics an
absolute filename replaces `temp_dir`, and a `..`-containing filename
resolves above it when the file is opened, so the uploaded bytes can land
outside the temporary directory — where neither `shutil.rmtree(temp_dir)` at
line 180 nor the handler at lines 215-219 removes them.  The model therefore
carries real paths: the filesystem is the list of OS-resolved paths that
exist, `resolvePath` performs the symlink-free lexical resolution of `.` and
`..` the kernel applies to the opened path, and `rmtree dir` removes exactly
the paths at or below `dir`.  The write of the uploaded bytes (lines 59-61,
`open` creates the file before the body runs, so it exists even when reading
the upload then raises: `readOk`) and the extraction (line 69, `extractOk`)
may raise; the per-file loop (lines 79-177) cannot, because its body is
wrapped in the except/continue of lines 171-177.  `shutil.rmtree` itself is
modelled as succeeding. -/

/-- Result of the import call: normal return, or HTTPException re-raised from
the handler at lines 221-224. -/
inductive ImportExit where
  | success
  | httpError
  deriving Repr, DecidableEq

/-- Split a path at every slash (empty segments for leading or doubled
slashes). -/
def splitOnSlash : List Char → List (List Char)
  | [] => [[]]
  | c :: cs =>
    if c = '/' then [] :: splitOnSlash cs
    else
      match splitOnSlash cs with
      | [] => [[c]]
      | seg :: segs => (c :: seg) :: segs

/-- A segment that survives resolution: not empty, not `.`, not `..`. -/
def isNormalSeg (s : List Char) : Bool :=
  if s = ['.'] ∨ s = [] then false
  else if s = ['.', '.'] then false
  else true

/-- Stack-based lexical resolution of the segments of an absolute path, as
the operating system performs it for symlink-free paths: `.` and empty
segments vanish, `..` removes the preceding segment (staying at the root
when there is none). -/
def resolveSegs : List (List Char) → List (List Char) → List (List Char)
  | stack, [] => stack.reverse
  | stack, seg :: rest =>
    if seg = ['.'] ∨ seg = [] then resolveSegs stack rest
    else if seg = ['.', '.'] then resolveSegs stack.tail rest
    else resolveSegs (seg :: stack) rest

/-- Rebuild a path from segments, separated by slashes. -/
def joinSegs : List (List Char) → List Char
  | [] => []
  | [s] => s
  | s :: rest => s ++ '/' :: joinSegs rest

/-- OS-level resolution of an absolute path: split, resolve `.` and `..`,
rejoin under the root. -/
def resolvePath (p : String) : String :=
  "/" ++ String.mk (joinSegs (resolveSegs [] (splitOnSlash p.data)))

/-- A resolved path equal to the directory or strictly below it — exactly
what `shutil.rmtree(dir)` deletes. -/
def isUnderDir (dir p : String) : Bool :=
  p == dir || strStartsWith p (dir ++ "/")

/-- `shutil.rmtree dir` on the modelled filesystem. -/
def rmtree (dir : String) (fs : List String) : List String :=
  fs.filter (fun p => !(isUnderDir dir p))

/-- The `except Exception` handler of lines 211-224: remove the temporary
directory tree when the directory still exists. -/
def exceptCleanup (dir : String) (fs : List String) : List String :=
  if dir ∈ fs then rmtree dir fs else fs

/-- The accepted extensions of line 45. -/
def validated_extensions : List String := [".zip", ".scorm", ".pif"]

/-- The filename/extension validation of lines 41-49: filename non-empty and
`Path(filename).suffix.lower()` among the accepted extensions. -/
def filenamePassesValidation (filename : String) : Bool :=
  !(filename == "") &&
  validated_extensions.contains (strLower (pathSplitExt (pathBaseName filename)).2)

/-- The filename shapes for which `Path(temp_dir) / filename` stays inside
the temporary directory: relative, and no parent-traversing segment. -/
def filenameStaysInside (filename : String) : Bool :=
  !(strStartsWith filename "/") &&
  (splitOnSlash filename.data).all (fun s => decide (s ≠ ['.', '.']))

/-- Temp-path lifecycle of `import_scorm_package` after validation:
`mkdtemp` (line 52), the upload path `Path(temp_dir) / filename` (line 53,
pathlib join, OS-resolved at `open`), the write (lines 59-61, `readOk`), the
extraction (line 69, `extractOk`), the per-file loop (never raises),
`shutil.rmtree(temp_dir)` at line 180 on the normal path, and the handler of
lines 211-224 on every raising path. -/
def importTempLifecycle (readOk extractOk : Bool) (tempDir filename : String) :
    ImportExit × List String :=
  let uploadPath := resolvePath (pathJoin tempDir filename)
  let fs : List String := [tempDir, uploadPath]
  if !readOk then
    (ImportExit.httpError, exceptCleanup tempDir fs)
  else if !extractOk then
    (ImportExit.httpError, exceptCleanup tempDir fs)
  else
    (ImportExit.success, rmtree tempDir fs)

/-- C1 (counterexample): the filename `/tmp/evil.zip` passes the suffix-only
validation of lines 41-49, but pathlib's absolute join makes the upload path
replace the temporary directory, so the written file survives the normal
return and the exception paths; a parent-traversing `../evil.zip` escapes
the same way. -/
theorem c1_escaping_filename_survives_cleanup :
    filenamePassesValidation "/tmp/evil.zip" = true ∧
    filenamePassesValidation "../evil.zip" = true ∧
    (importTempLifecycle true true "/tmp/scorm_import_x" "/tmp/evil.zip").1 =
      ImportExit.success ∧
    (importTempLifecycle true true "/tmp/scorm_import_x" "/tmp/evil.zip").2 =
      ["/tmp/evil.zip"] ∧
    (importTempLifecycle false true "/tmp/scorm_import_x" "/tmp/evil.zip").2 =
      ["/tmp/evil.zip"] ∧
    (importTempLifecycle true false "/tmp/scorm_import_x" "/tmp/evil.zip").2 =
      ["/tmp/evil.zip"] ∧
    (importTempLifecycle true true "/tmp/scorm_import_x" "../evil.zip").2 =
      ["/tmp/evil.zip"] := by
  refine ⟨?_, ?_, ?_, ?_, ?_, ?_, ?_⟩ <;> decide

theorem splitOnSlash_ne_nil : ∀ l : List Char, splitOnSlash l ≠ [] := by
  intro l
  induction l with
  | nil => simp [splitOnSlash]
  | cons c cs ih =>
    unfold splitOnSlash
    by_cases h : c = '/'
    · simp [h]
    · simp only [if_neg h]
      cases hsp : splitOnSlash cs with
      | nil => exact absurd hsp ih
      | cons seg segs => simp

theorem splitOnSlash_append (ys : List Char) :
    ∀ xs : List Char,
      splitOnSlash (xs ++ '/' :: ys) = splitOnSlash xs ++ splitOnSlash ys := by
  intro xs
  induction xs with
  | nil =>
    show splitOnSlash ('/' :: ys) = splitOnSlash [] ++ splitOnSlash ys
    simp only [splitOnSlash]
    simp
  | cons c cs ih =>
    show splitOnSlash (c :: (cs ++ '/' :: ys)) =
      splitOnSlash (c :: cs) ++ splitOnSlash ys
    by_cases h : c = '/'
    · simp only [splitOnSlash, if_pos h, ih]
      simp
    · simp only [splitOnSlash, if_neg h, ih]
      cases hsp : splitOnSlash cs with
      | nil => exact absurd hsp (splitOnSlash_ne_nil cs)
      | cons seg segs => simp

theorem resolveSegs_append :
    ∀ (xs ys stack : List (List Char)),
      resolveSegs stack (xs ++ ys) =
        resolveSegs (resolveSegs stack xs).reverse ys := by
  intro xs
  induction xs with
  | nil =>
    intro ys stack
    show resolveSegs stack ys = resolveSegs (resolveSegs stack []).reverse ys
    simp [resolveSegs]
  | cons seg rest ih =>
    intro ys stack
    show resolveSegs stack (seg :: (rest ++ ys)) =
      resolveSegs (resolveSegs stack (seg :: rest)).reverse ys
    by_cases h1 : seg = ['.'] ∨ seg = []
    · simp only [resolveSegs, if_pos h1]
      exact ih ys stack
    · by_cases h2 : seg = ['.', '.']
      · simp only [resolveSegs, if_neg h1, if_pos h2]
        exact ih ys stack.tail
      · simp only [resolveSegs, if_neg h1, if_neg h2]
        exact ih ys (seg :: stack)

theorem resolveSegs_no_dotdot :
    ∀ (ys stack : List (List Char)),
      (∀ s ∈ ys, ¬ s = ['.', '.']) →
      resolveSegs stack ys = stack.reverse ++ ys.filter isNormalSeg := by
  intro ys
  induction ys with
  | nil => intro stack _; simp [resolveSegs]
  | cons seg rest ih =>
    intro stack h
    have hdd : ¬ seg = ['.', '.'] := h seg (List.mem_cons_self seg rest)
    have hrest : ∀ s ∈ rest, ¬ s = ['.', '.'] :=
      fun s hs => h s (List.mem_cons_of_mem seg hs)
    unfold resolveSegs
    by_cases h1 : seg = ['.'] ∨ seg = []
    · rw [if_pos h1, ih stack hrest]
      have hn : isNormalSeg seg = false := by
        unfold isNormalSeg
        rw [if_pos h1]
      simp [List.filter_cons, hn]
    · rw [if_neg h1, if_neg hdd, ih (seg :: stack) hrest]
      have hn : isNormalSeg seg = true := by
        unfold isNormalSeg
        rw [if_neg h1, if_neg hdd]
      simp [List.filter_cons, hn, List.append_assoc]

theorem joinSegs_append :
    ∀ (a b : List (List Char)), a ≠ [] → b ≠ [] →
      joinSegs (a ++ b) = joinSegs a ++ '/' :: joinSegs b := by
  intro a
  induction a with
  | nil => intro b h _; exact absurd rfl h
  | cons s rest ih =>
    intro b _ hb
    cases rest with
    | nil =>
      cases b with
      | nil => exact absurd rfl hb
      | cons b1 bs =>
        show joinSegs (s :: b1 :: bs) = joinSegs [s] ++ '/' :: joinSegs (b1 :: bs)
        simp [joinSegs]
    | cons s2 rest2 =>
      show joinSegs (s :: ((s2 :: rest2) ++ b)) =
        joinSegs (s :: s2 :: rest2) ++ '/' :: joinSegs b
      rw [show (s2 :: rest2) ++ b = s2 :: (rest2 ++ b) from rfl]
      rw [show joinSegs (s :: s2 :: (rest2 ++ b)) =
        s ++ '/' :: joinSegs (s2 :: (rest2 ++ b)) from rfl]
      rw [show joinSegs (s :: s2 :: rest2) =
        s ++ '/' :: joinSegs (s2 :: rest2) from rfl]
      rw [show s2 :: (rest2 ++ b) = (s2 :: rest2) ++ b from rfl]
      rw [ih b (by simp) hb]
      simp [List.append_assoc]

theorem dropLit_self_append : ∀ xs ys : List Char, dropLit xs (xs ++ ys) = some ys := by
  intro xs ys
  induction xs with
  | nil => rfl
  | cons c cs ih => simp [dropLit, ih]

theorem string_data_append (a b : String) : (a ++ b).data = a.data ++ b.data := by
  cases a
  cases b
  rfl

theorem slash_data : ("/" : String).data = ['/'] := rfl

/-- For a canonical absolute temporary directory and a relative,
`..`-free filename, the resolved upload path lies inside the directory. -/
theorem resolve_join_isUnder (tempDir filename : String)
    (hcanon : resolvePath tempDir = tempDir) (hroot : tempDir ≠ "/")
    (hfn : filenameStaysInside filename = true) :
    isUnderDir tempDir (resolvePath (pathJoin tempDir filename)) = true := by
  unfold filenameStaysInside at hfn
  rw [Bool.and_eq_true] at hfn
  obtain ⟨h1, h2⟩ := hfn
  have habs : strStartsWith filename "/" = false := by
    revert h1
    cases strStartsWith filename "/" <;> simp
  have hnodd : ∀ s ∈ splitOnSlash filename.data, ¬ s = ['.', '.'] := by
    intro s hs
    have hds := List.all_eq_true.mp h2 s hs
    exact of_decide_eq_true hds
  have hjoin : pathJoin tempDir filename = tempDir ++ "/" ++ filename := by
    unfold pathJoin
    rw [habs]
    simp
  have hdata : (tempDir ++ "/" ++ filename).data =
      tempDir.data ++ '/' :: filename.data := by
    rw [string_data_append, string_data_append]
    simp
  have hres : resolveSegs [] (splitOnSlash (tempDir ++ "/" ++ filename).data) =
      resolveSegs [] (splitOnSlash tempDir.data) ++
        (splitOnSlash filename.data).filter isNormalSeg := by
    rw [hdata, splitOnSlash_append, resolveSegs_append,
      resolveSegs_no_dotdot _ _ hnodd, List.reverse_reverse]
  have htd : tempDir.data =
      '/' :: joinSegs (resolveSegs [] (splitOnSlash tempDir.data)) := by
    conv_lhs => rw [← hcanon]
    unfold resolvePath
    rw [string_data_append, slash_data]
    rfl
  rw [hjoin]
  unfold resolvePath
  rw [hres]
  cases hF : (splitOnSlash filename.data).filter isNormalSeg with
  | nil =>
    rw [List.append_nil]
    have heq : ("/" : String) ++
        String.mk (joinSegs (resolveSegs [] (splitOnSlash tempDir.data))) =
        tempDir := hcanon
    rw [heq]
    simp [isUnderDir]
  | cons f1 fs =>
    have hRne : resolveSegs [] (splitOnSlash tempDir.data) ≠ [] := by
      intro h0
      apply hroot
      rw [← hcanon]
      unfold resolvePath
      rw [h0]
      rfl
    cases hRv : resolveSegs [] (splitOnSlash tempDir.data) with
    | nil => exact absurd hRv hRne
    | cons r1 rs =>
      rw [joinSegs_append (r1 :: rs) (f1 :: fs) (by simp) (by simp)]
      have hstart : strStartsWith
          ("/" ++ String.mk (joinSegs (r1 :: rs) ++ '/' :: joinSegs (f1 :: fs)))
          (tempDir ++ "/") = true := by
        unfold strStartsWith
        have hT : ("/" ++
            String.mk (joinSegs (r1 :: rs) ++ '/' :: joinSegs (f1 :: fs))).data =
            (tempDir ++ "/").data ++ joinSegs (f1 :: fs) := by
          rw [string_data_append, string_data_append, htd, hRv, slash_data]
          rw [show (String.mk (joinSegs (r1 :: rs) ++ '/' :: joinSegs (f1 :: fs))).data
              = joinSegs (r1 :: rs) ++ '/' :: joinSegs (f1 :: fs) from rfl]
          simp
        rw [hT, dropLit_self_append]
        rfl
      unfold isUnderDir
      rw [hstart]
      simp

/-- C1 (amended): for every validated filename that is relative and free of
parent-directory segments — so that `Path(temp_dir) / filename` stays inside
the temporary directory — neither the temporary upload file nor the
temporary directory exists when the call returns, on the normal path and on
every exception path.  (`hcanon` and `hroot` state that the `mkdtemp` result
is a canonical absolute directory other than the root, which
`tempfile.mkdtemp` guarantees.) -/
theorem c1_cleanup_for_non_escaping_filenames (readOk extractOk : Bool)
    (tempDir filename : String)
    (hcanon : resolvePath tempDir = tempDir) (hroot : tempDir ≠ "/")
    (hfn : filenameStaysInside filename = true) :
    (importTempLifecycle readOk extractOk tempDir filename).2 = [] ∧
    tempDir ∉ (importTempLifecycle readOk extractOk tempDir filename).2 ∧
    resolvePath (pathJoin tempDir filename) ∉
      (importTempLifecycle readOk extractOk tempDir filename).2 := by
  have hu : isUnderDir tempDir (resolvePath (pathJoin tempDir filename)) = true :=
    resolve_join_isUnder tempDir filename hcanon hroot hfn
  have hd : isUnderDir tempDir tempDir = true := by simp [isUnderDir]
  have hmain : (importTempLifecycle readOk extractOk tempDir filename).2 = [] := by
    unfold importTempLifecycle
    cases readOk <;> cases extractOk <;>
      simp [exceptCleanup, rmtree, hd, hu]
  refine ⟨hmain, ?_, ?_⟩ <;> rw [hmain] <;> exact List.not_mem_nil _

theorem c1_cleanup_for_non_escaping_filenames_witness :
    (importTempLifecycle true true "/tmp/scorm_import_x" "package.zip").2 = [] ∧
    "/tmp/scorm_import_x" ∉
      (importTempLifecycle true true "/tmp/scorm_import_x" "package.zip").2 ∧
    resolvePath (pathJoin "/tmp/scorm_import_x" "package.zip") ∉
      (importTempLifecycle true true "/tmp/scorm_import_x" "package.zip").2 :=
  c1_cleanup_for_non_escaping_filenames true true "/tmp/scorm_import_x"
    "package.zip" (by decide) (by decide) (by decide)

/-! ## C10: the per-file import loop (endpoints/scorm.py lines 79-177,
crud/lesson.py lines 19-24)

`create_lesson` commits its row immediately (lesson.py lines 21-23), so every
row in `db` is committed.  Conversion of one file
(`convert_to_markdown_with_images`, line 100) is abstracted by an oracle
`conv`; `none` models the processing of that file raising, which the handler
of lines 171-177 turns into a `failed_conversions` entry before continuing.
The failure oracle sits at the conversion call, the first fallible operation
after the lesson row is created. -/

/-- A committed lesson row (id, title, content). -/
structure LessonRow where
  id : Nat
  title : String
  content : String
  deriving Repr, DecidableEq

/-- The placeholder content of line 91. -/
def placeholderContent : String := "Конвертация..."

/-- The provisional title of lines 84-87: the file stem, prefixed with a
lesson number when more than one HTML file was found. -/
def provisionalTitle (total idx : Nat) (fileStem : String) : String :=
  if total > 1 then "Урок " ++ toString (idx + 1) ++ ": " ++ fileStem else fileStem

/-- State threaded through the loop: committed lesson rows, the next row id,
the ids listed in `lessons_created`, and the `failed_conversions` entries. -/
structure ImportLoopState where
  db : List LessonRow
  nextId : Nat
  created : List Nat
  failed : List String
  deriving Repr, DecidableEq

/-- One iteration of the loop of lines 79-177: create and commit the
provisional lesson (line 96), then either finish conversion, update the
content and record the lesson in `lessons_created` (lines 100-167), or catch
the exception, record a failure entry and continue (lines 171-177) — the
committed row is not deleted on the failure path.  (On the success path line
109 re-assigns the same provisional title, a no-op.) -/
def processHtmlFile (conv : String → Option String) (total : Nat)
    (st : ImportLoopState) (entry : Nat × String) : ImportLoopState :=
  let title := provisionalTitle total entry.1 (pathSplitExt (pathBaseName entry.2)).1
  let row : LessonRow := ⟨st.nextId, title, placeholderContent⟩
  let db1 := st.db ++ [row]
  match conv entry.2 with
  | some md =>
    ⟨db1.map (fun r => if r.id = st.nextId then ⟨r.id, r.title, md⟩ else r),
     st.nextId + 1, st.created ++ [st.nextId], st.failed⟩
  | none =>
    ⟨db1, st.nextId + 1, st.created, st.failed ++ [entry.2]⟩

/-- The whole loop over the discovered HTML files, in order. -/
def importLoop (conv : String → Option String) (htmlFiles : List String) :
    ImportLoopState :=
  htmlFiles.enum.foldl (processHtmlFile conv htmlFiles.length) ⟨[], 0, [], []⟩

/-- Loop invariant carried by `importLoop`. -/
def loopInv (st : ImportLoopState) : Prop :=
  st.db.length = st.created.length + st.failed.length ∧
  st.nextId = st.db.length ∧
  (∀ r ∈ st.db, r.id < st.nextId) ∧
  (∀ r ∈ st.db, r.id ∉ st.created → r.content = placeholderContent)

theorem processHtmlFile_inv (conv : String → Option String) (total : Nat)
    (st : ImportLoopState) (entry : Nat × String) (h : loopInv st) :
    loopInv (processHtmlFile conv total st entry) := by
  obtain ⟨hlen, hnext, hlt, hph⟩ := h
  cases hc : conv entry.2 with
  | some md =>
    have heq : processHtmlFile conv total st entry =
        ⟨(st.db ++ [(⟨st.nextId,
            provisionalTitle total entry.1 (pathSplitExt (pathBaseName entry.2)).1,
            placeholderContent⟩ : LessonRow)]).map
            (fun (r : LessonRow) =>
              if r.id = st.nextId then (⟨r.id, r.title, md⟩ : LessonRow) else r),
         st.nextId + 1, st.created ++ [st.nextId], st.failed⟩ := by
      unfold processHtmlFile
      rw [hc]
    rw [heq]
    unfold loopInv
    refine ⟨?_, ?_, ?_, ?_⟩
    · show (List.map _ _).length = (st.created ++ [st.nextId]).length + st.failed.length
      simp only [List.length_map, List.length_append, List.length_cons,
        List.length_nil]
      omega
    · show st.nextId + 1 = (List.map _ _).length
      simp only [List.length_map, List.length_append, List.length_cons,
        List.length_nil]
      omega
    · intro r hr
      show r.id < st.nextId + 1
      simp only [List.mem_map] at hr
      obtain ⟨s, hs, hsr⟩ := hr
      have hid : r.id = s.id := by
        rw [← hsr]
        by_cases hq : s.id = st.nextId
        · rw [if_pos hq]
        · rw [if_neg hq]
      rcases List.mem_append.mp hs with hs1 | hs1
      · have := hlt s hs1
        omega
      · have hs2 : s.id = st.nextId := by
          have hv : s = (⟨st.nextId,
              provisionalTitle total entry.1 (pathSplitExt (pathBaseName entry.2)).1,
              placeholderContent⟩ : LessonRow) := by simpa using hs1
          rw [hv]
        omega
    · intro r hr hmem
      have hmem2 : r.id ∉ st.created ++ [st.nextId] := hmem
      simp only [List.mem_map] at hr
      obtain ⟨s, hs, hsr⟩ := hr
      rcases List.mem_append.mp hs with hs1 | hs1
      · have hslt := hlt s hs1
        have hq : ¬ s.id = st.nextId := by omega
        rw [if_neg hq] at hsr
        subst hsr
        refine hph s hs1 (fun hin => hmem2 ?_)
        exact List.mem_append.mpr (Or.inl hin)
      · have hseq : s = (⟨st.nextId,
            provisionalTitle total entry.1 (pathSplitExt (pathBaseName entry.2)).1,
            placeholderContent⟩ : LessonRow) := by simpa using hs1
        exfalso
        apply hmem2
        rw [← hsr, hseq]
        simp
  | none =>
    have heq : processHtmlFile conv total st entry =
        ⟨st.db ++ [(⟨st.nextId,
            provisionalTitle total entry.1 (pathSplitExt (pathBaseName entry.2)).1,
            placeholderContent⟩ : LessonRow)],
         st.nextId + 1, st.created, st.failed ++ [entry.2]⟩ := by
      unfold processHtmlFile
      rw [hc]
    rw [heq]
    unfold loopInv
    refine ⟨?_, ?_, ?_, ?_⟩
    · show (st.db ++ _).length = st.created.length + (st.failed ++ [entry.2]).length
      simp only [List.length_append, List.length_cons, List.length_nil]
      omega
    · show st.nextId + 1 = (st.db ++ _).length
      simp only [List.length_append, List.length_cons, List.length_nil]
      omega
    · intro r hr
      show r.id < st.nextId + 1
      rcases List.mem_append.mp hr with hs1 | hs1
      · have := hlt r hs1
        omega
      · have hv : r = (⟨st.nextId,
            provisionalTitle total entry.1 (pathSplitExt (pathBaseName entry.2)).1,
            placeholderContent⟩ : LessonRow) := by simpa using hs1
        rw [hv]
        simp
    · intro r hr hmem
      rcases List.mem_append.mp hr with hs1 | hs1
      · exact hph r hs1 hmem
      · have hv : r = (⟨st.nextId,
            provisionalTitle total entry.1 (pathSplitExt (pathBaseName entry.2)).1,
            placeholderContent⟩ : LessonRow) := by simpa using hs1
        rw [hv]

theorem foldl_processHtmlFile_inv (conv : String → Option String) (total : Nat) :
    ∀ (entries : List (Nat × String)) (st : ImportLoopState), loopInv st →
      loopInv (entries.foldl (processHtmlFile conv total) st) := by
  intro entries
  induction entries with
  | nil => intro st h; exact h
  | cons e rest ih =>
    intro st h
    rw [List.foldl_cons]
    exact ih _ (processHtmlFile_inv conv total st e h)

theorem importLoop_inv (conv : String → Option String) (htmlFiles : List String) :
    loopInv (importLoop conv htmlFiles) := by
  unfold importLoop
  refine foldl_processHtmlFile_inv conv htmlFiles.length htmlFiles.enum ⟨[], 0, [], []⟩ ?_
  refine ⟨rfl, rfl, ?_, ?_⟩ <;> intro r hr <;> exact absurd hr (List.not_mem_nil r)

/-- C10: a file whose processing raises after its provisional lesson was
created leaves that committed row in the database with its placeholder
content, records a failure entry instead of deleting it, and does not count
it in `lessons_created` — so committed rows can exceed the reported
`lessons_created` count whenever any failure occurred. -/
theorem c10_failed_conversion_leaves_orphan_row (conv : String → Option String)
    (htmlFiles : List String) :
    (importLoop conv htmlFiles).db.length =
      (importLoop conv htmlFiles).created.length +
      (importLoop conv htmlFiles).failed.length ∧
    (∀ r ∈ (importLoop conv htmlFiles).db,
      r.id ∉ (importLoop conv htmlFiles).created → r.content = placeholderContent) ∧
    ((importLoop conv htmlFiles).failed ≠ [] →
      (importLoop conv htmlFiles).created.length <
        (importLoop conv htmlFiles).db.length) := by
  obtain ⟨hlen, -, -, hph⟩ := importLoop_inv conv htmlFiles
  refine ⟨hlen, hph, ?_⟩
  intro hne
  have : (importLoop conv htmlFiles).failed.length ≠ 0 := by
    intro h0
    exact hne (List.length_eq_zero.mp h0)
  omega

theorem c10_failed_conversion_leaves_orphan_row_witness :
    (importLoop (fun _ => none) ["pkg/a.html"]).db =
      [⟨0, "a", placeholderContent⟩] ∧
    (importLoop (fun _ => none) ["pkg/a.html"]).created = [] ∧
    (importLoop (fun _ => none) ["pkg/a.html"]).failed = ["pkg/a.html"] ∧
    (importLoop (fun _ => none) ["pkg/a.html"]).created.length <
      (importLoop (fun _ => none) ["pkg/a.html"]).db.length := by
  refine ⟨by decide, by decide, by decide, ?_⟩
  exact (c10_failed_conversion_leaves_orphan_row (fun _ => none) ["pkg/a.html"]).2.2
    (by decide)

/-! ## C4: file classification of extract_scorm_package (scorm_parser.py
lines 160-226)

The manifest-declared pass (lines 166-180) appends with no membership check;
the recursive-scan passes (lines 183-221) append only paths not already
present.  `fsExists` is the existence oracle for resolved paths; the eight
scan lists are the `rglob` results for each pattern, in traversal order. -/

/-- A `<resource>` record as produced by `parse_manifest` (lines 93-106). -/
structure ResourceEntry where
  identifier : String
  rtype : String
  href : String
  files : List String
  deriving Repr, DecidableEq

/-- The three classified file lists of the returned metadata. -/
structure FileBuckets where
  html : List String
  image : List String
  other : List String
  deriving Repr, DecidableEq

/-- Extensions routed to the html bucket (line 175). -/
def html_exts : List String := [".html", ".htm"]

/-- Extensions routed to the image bucket in the manifest pass (line 177). -/
def manifest_image_exts : List String :=
  [".jpg", ".jpeg", ".png", ".gif", ".bmp", ".svg", ".webp"]

/-- `file_lower.endswith(tuple)`. -/
def endsWithAny (s : String) (exts : List String) : Bool :=
  exts.any (fun e => strEndsWith s e)

/-- One manifest-declared file (lines 167-180): skipped when empty or when
the resolved path does not exist, otherwise appended — without any duplicate
check — to the bucket chosen by the lowercased extension. -/
def classifyOne (root : String) (fsExists : String → Bool)
    (b : FileBuckets) (file : String) : FileBuckets :=
  if file ≠ "" && fsExists (pathJoin root file) then
    let fileStr := pathJoin root file
    let fl := strLower file
    if endsWithAny fl html_exts then ⟨b.html ++ [fileStr], b.image, b.other⟩
    else if endsWithAny fl manifest_image_exts then
      ⟨b.html, b.image ++ [fileStr], b.other⟩
    else ⟨b.html, b.image, b.other ++ [fileStr]⟩
  else b

/-- The manifest-declared pass over all resources (lines 166-180). -/
def classifyManifestFiles (root : String) (fsExists : String → Bool)
    (resources : List ResourceEntry) : FileBuckets :=
  resources.foldl (fun b r => r.files.foldl (classifyOne root fsExists) b)
    ⟨[], [], []⟩

/-- One scan pass (e.g. lines 183-186): append each scanned path that is not
already in the bucket. -/
def addIfAbsent (bucket : List String) (xs : List String) : List String :=
  xs.foldl (fun b x => if x ∈ b then b else b ++ [x]) bucket

/-- The full file-collection phase of `extract_scorm_package` (lines
160-226): manifest pass, then the two html scan passes and six image scan
passes; `other` receives no scan pass. -/
def extract_collect_files (root : String) (fsExists : String → Bool)
    (resources : List ResourceEntry)
    (scanHtml scanHtm scanJpg scanJpeg scanPng scanGif scanBmp scanSvg :
      List String) : FileBuckets :=
  ⟨addIfAbsent (addIfAbsent
      (classifyManifestFiles root fsExists resources).html scanHtml) scanHtm,
   addIfAbsent (addIfAbsent (addIfAbsent (addIfAbsent (addIfAbsent (addIfAbsent
      (classifyManifestFiles root fsExists resources).image
      scanJpg) scanJpeg) scanPng) scanGif) scanBmp) scanSvg,
   (classifyManifestFiles root fsExists resources).other⟩

/-- C4 (counterexample): an archive whose manifest declares the same existing
file in two resources yields an html_files list with an exact duplicate — the
manifest-declared pass never deduplicates, so the no-duplicate invariant
fails. -/
theorem c4_manifest_pass_duplicates :
    (extract_collect_files "r" (fun p => p == "r/index.html")
        [⟨"res1", "webcontent", "index.html", ["index.html"]⟩,
         ⟨"res2", "webcontent", "index.html", ["index.html"]⟩]
        [] [] [] [] [] [] [] []).html = ["r/index.html", "r/index.html"] ∧
    ¬ (extract_collect_files "r" (fun p => p == "r/index.html")
        [⟨"res1", "webcontent", "index.html", ["index.html"]⟩,
         ⟨"res2", "webcontent", "index.html", ["index.html"]⟩]
        [] [] [] [] [] [] [] []).html.Nodup := by
  constructor
  · decide
  · decide

/-- Each single `addIfAbsent` step preserves the no-duplicate property. -/
theorem addIfAbsent_nodup (xs : List String) :
    ∀ b : List String, b.Nodup → (addIfAbsent b xs).Nodup := by
  induction xs with
  | nil => intro b hb; exact hb
  | cons x rest ih =>
    intro b hb
    simp only [addIfAbsent, List.foldl_cons]
    by_cases hx : x ∈ b
    · rw [if_pos hx]
      exact ih b hb
    · rw [if_neg hx]
      refine ih (b ++ [x]) ?_
      refine List.nodup_append.mpr ⟨hb, List.nodup_singleton x, ?_⟩
      intro a ha hax
      rw [List.mem_singleton] at hax
      subst hax
      exact hx ha

/-- C4 (amended): the recursive-scan passes add only paths not already
present, so html_files and image_files are duplicate-free whenever the
manifest-declared pass contributed no duplicates; the manifest pass itself
performs no deduplication, so a file declared twice in resources yields
duplicates (and other_files, which has no scan pass, likewise). -/
theorem c4_scan_passes_preserve_nodup (root : String) (fsExists : String → Bool)
    (resources : List ResourceEntry)
    (scanHtml scanHtm scanJpg scanJpeg scanPng scanGif scanBmp scanSvg :
      List String)
    (hh : (classifyManifestFiles root fsExists resources).html.Nodup)
    (hi : (classifyManifestFiles root fsExists resources).image.Nodup) :
    (extract_collect_files root fsExists resources
      scanHtml scanHtm scanJpg scanJpeg scanPng scanGif scanBmp scanSvg).html.Nodup ∧
    (extract_collect_files root fsExists resources
      scanHtml scanHtm scanJpg scanJpeg scanPng scanGif scanBmp scanSvg).image.Nodup := by
  constructor
  · exact addIfAbsent_nodup scanHtm _ (addIfAbsent_nodup scanHtml _ hh)
  · exact addIfAbsent_nodup scanSvg _ (addIfAbsent_nodup scanBmp _
      (addIfAbsent_nodup scanGif _ (addIfAbsent_nodup scanPng _
      (addIfAbsent_nodup scanJpeg _ (addIfAbsent_nodup scanJpg _ hi)))))

theorem c4_scan_passes_preserve_nodup_witness :
    (extract_collect_files "r" (fun _ => false) []
      ["r/a.html"] ["r/a.html"] [] [] [] [] [] []).html.Nodup ∧
    (extract_collect_files "r" (fun _ => false) []
      ["r/a.html"] ["r/a.html"] [] [] [] [] [] []).image.Nodup :=
  c4_scan_passes_preserve_nodup "r" (fun _ => false) []
    ["r/a.html"] ["r/a.html"] [] [] [] [] [] [] (by decide) (by decide)

/-! ## C5/C6: the asset rehomer, extract_and_process_images
(scorm_parser.py lines 335-498)

Python library primitives the source calls are explicit parameters:
`isFile p` is `Path(p).exists() and Path(p).is_file()`, `unquote` is
`urllib.parse.unquote`, `md5hex p` is `hashlib.md5(p.encode()).hexdigest()`,
and `copyOk p` tells whether `shutil.copy2` from resolved path `p` succeeds
(line 397 / 471; a failure is caught and treated as a skip). -/

/-- The skip test of lines 357 / 436: data URIs and external URLs are left
untouched. -/
def isSkippedRef (src : String) : Bool :=
  strStartsWith src "data:" || strStartsWith src "http://" ||
  strStartsWith src "https://" || strStartsWith src "//"

/-- The four resolution candidates of lines 366-371 / 442-447, in order:
relative to the HTML file's directory as-is and URL-decoded, then relative to
the extraction root with leading slashes stripped, as-is and URL-decoded. -/
def candidatePaths (unquote : String → String)
    (htmlDir extractedPath src : String) : List String :=
  [pathJoin htmlDir src,
   pathJoin htmlDir (unquote src),
   pathJoin extractedPath (lstripSlashes src),
   pathJoin extractedPath (unquote (lstripSlashes src))]

/-- One record of the `processed_images` list (lines 411-417 / 480-487; the
background variant carries an extra `type: background` key, modelled by the
flag). -/
structure RehomedAsset where
  original_path : String
  original_src : String
  new_path : String
  new_url : String
  filename : String
  isBackground : Bool
  deriving Repr, DecidableEq

/-- The known image extensions of line 389 / 463; anything else becomes
`.bin`. -/
def known_image_extensions : List String :=
  [".jpg", ".jpeg", ".png", ".gif", ".bmp", ".svg", ".webp"]

/-- The per-lesson destination directory of line 345. -/
def imagesDir (uploadBaseDir : String) (courseId lessonId : Nat) : String :=
  uploadBaseDir ++ "/courses/" ++ toString courseId ++ "/lessons/" ++
    toString lessonId ++ "/images"

/-- The public URL of line 401 / 475. -/
def publicImageUrl (courseId lessonId : Nat) (filename : String) : String :=
  "/uploads/courses/" ++ toString courseId ++ "/lessons/" ++
    toString lessonId ++ "/images/" ++ filename

/-- Either quote character. -/
def isQuote (c : Char) : Bool := c = '"' || c = '\x27'

/-- The inner rewrite of line 404-408: `re.sub` of `src=["'][^"']+["']` by
`src="newUrl"` inside the matched tag text. -/
def matchSrcAttrAt (s : List Char) : Option (List Char) :=
  match s with
  | 's' :: 'r' :: 'c' :: '=' :: q :: rest =>
    if isQuote q then
      match rest.takeWhile (fun c => !(isQuote c)) with
      | [] => none
      | _ :: _ =>
        match rest.dropWhile (fun c => !(isQuote c)) with
        | q2 :: rest2 => if isQuote q2 then some rest2 else none
        | [] => none
    else none
  | _ => none

def subSrcAttrGo (repl : List Char) : Nat → List Char → List Char
  | _, [] => []
  | 0, s => s
  | fuel + 1, c :: cs =>
    match matchSrcAttrAt (c :: cs) with
    | some rest => repl ++ subSrcAttrGo repl fuel rest
    | none => c :: subSrcAttrGo repl fuel cs

def subSrcAttr (tag newUrl : String) : String :=
  String.mk (subSrcAttrGo ("src=\"" ++ newUrl ++ "\"").data tag.data.length tag.data)

/-- `replace_image` (scorm_parser.py lines 352-423) for one regex match:
skip prefixes, resolution over the four candidates, hash/filename/extension
computation, copy, and in-place rewrite of the `src` attribute. -/
def replace_image (isFile : String → Bool) (unquote md5hex : String → String)
    (copyOk : String → Bool) (htmlDir extractedPath uploadBaseDir : String)
    (courseId lessonId : Nat) (imgTag imgSrc : String)
    (processed : List RehomedAsset) : String × List RehomedAsset :=
  if isSkippedRef imgSrc then (imgTag, processed)
  else
    match (candidatePaths unquote htmlDir extractedPath imgSrc).find? isFile with
    | none => (imgTag, processed)
    | some imgPath =>
      let fileHash := String.mk ((md5hex imgPath).data.take 8)
      let stemExt := pathSplitExt (pathBaseName imgPath)
      let ext0 := strLower stemExt.2
      let extension := if ext0 ∈ known_image_extensions then ext0 else ".bin"
      let newFilename := stemExt.1 ++ "_" ++ fileHash ++ extension
      let newFilepath := imagesDir uploadBaseDir courseId lessonId ++ "/" ++ newFilename
      if copyOk imgPath then
        let newUrl := publicImageUrl courseId lessonId newFilename
        (subSrcAttr imgTag newUrl,
         processed ++ [⟨imgPath, imgSrc, newFilepath, newUrl, newFilename, false⟩])
      else (imgTag, processed)

/-- `replace_background` (scorm_parser.py lines 431-493) for one regex match:
as `replace_image`, but the generated name carries `_bg_`, and the whole
matched declaration is replaced by `background-image: url("newUrl")`. -/
def replace_background (isFile : String → Bool) (unquote md5hex : String → String)
    (copyOk : String → Bool) (htmlDir extractedPath uploadBaseDir : String)
    (courseId lessonId : Nat) (fullMatch bgUrl : String)
    (processed : List RehomedAsset) : String × List RehomedAsset :=
  if isSkippedRef bgUrl then (fullMatch, processed)
  else
    match (candidatePaths unquote htmlDir extractedPath bgUrl).find? isFile with
    | none => (fullMatch, processed)
    | some imgPath =>
      let fileHash := String.mk ((md5hex imgPath).data.take 8)
      let stemExt := pathSplitExt (pathBaseName imgPath)
      let ext0 := strLower stemExt.2
      let extension := if ext0 ∈ known_image_extensions then ext0 else ".bin"
      let newFilename := stemExt.1 ++ "_bg_" ++ fileHash ++ extension
      let newFilepath := imagesDir uploadBaseDir courseId lessonId ++ "/" ++ newFilename
      if copyOk imgPath then
        let newUrl := publicImageUrl courseId lessonId newFilename
        ("background-image: url(\"" ++ newUrl ++ "\")",
         processed ++ [⟨imgPath, bgUrl, newFilepath, newUrl, newFilename, true⟩])
      else (fullMatch, processed)

/-- C5: a reference (inline image or background image) none of whose four
resolution candidates is an existing regular file is left byte-identical,
produces no RehomedAsset, and raises no error (the handlers are total). -/
theorem c5_unresolved_reference_is_soft_failure
    (isFile : String → Bool) (unquote md5hex : String → String)
    (copyOk : String → Bool) (htmlDir extractedPath uploadBaseDir : String)
    (courseId lessonId : Nat) (imgTag imgSrc fullMatch bgUrl : String)
    (processed : List RehomedAsset)
    (himg : ∀ p ∈ candidatePaths unquote htmlDir extractedPath imgSrc,
      isFile p = false)
    (hbg : ∀ p ∈ candidatePaths unquote htmlDir extractedPath bgUrl,
      isFile p = false) :
    replace_image isFile unquote md5hex copyOk htmlDir extractedPath
      uploadBaseDir courseId lessonId imgTag imgSrc processed =
      (imgTag, processed) ∧
    replace_background isFile unquote md5hex copyOk htmlDir extractedPath
      uploadBaseDir courseId lessonId fullMatch bgUrl processed =
      (fullMatch, processed) := by
  have hfi : (candidatePaths unquote htmlDir extractedPath imgSrc).find? isFile
      = none := by
    rw [List.find?_eq_none]
    intro p hp
    simp [himg p hp]
  have hfb : (candidatePaths unquote htmlDir extractedPath bgUrl).find? isFile
      = none := by
    rw [List.find?_eq_none]
    intro p hp
    simp [hbg p hp]
  constructor
  · unfold replace_image
    by_cases hs : isSkippedRef imgSrc
    · rw [if_pos hs]
    · rw [if_neg hs, hfi]
  · unfold replace_background
    by_cases hs : isSkippedRef bgUrl
    · rw [if_pos hs]
    · rw [if_neg hs, hfb]

theorem c5_unresolved_reference_is_soft_failure_witness :
    replace_image (fun _ => false) id (fun _ => "d41d8cd98f") (fun _ => true)
      "r/content" "r" "up" 1 2 "<img src=\"missing.png\">" "missing.png" [] =
      ("<img src=\"missing.png\">", []) ∧
    replace_background (fun _ => false) id (fun _ => "d41d8cd98f") (fun _ => true)
      "r/content" "r" "up" 1 2 "background-image: url(gone.png)" "gone.png" [] =
      ("background-image: url(gone.png)", []) :=
  c5_unresolved_reference_is_soft_failure (fun _ => false) id
    (fun _ => "d41d8cd98f") (fun _ => true) "r/content" "r" "up" 1 2
    "<img src=\"missing.png\">" "missing.png"
    "background-image: url(gone.png)" "gone.png" []
    (by intro p _; rfl) (by intro p _; rfl)

/-- C6: a resolved-and-copied reference yields the generated file name
`stem_hash8ext` (inline) or `stem_bg_hash8ext` (background), where the hash
is the first 8 hex characters of the hash of the resolved path string and the
extension is the lowercased original when known, else `.bin`; the rewritten
reference value is the public path under
/uploads/courses/id/lessons/id/images/. -/
theorem c6_rehomed_filename_and_url
    (isFile : String → Bool) (unquote md5hex : String → String)
    (copyOk : String → Bool) (htmlDir extractedPath uploadBaseDir : String)
    (courseId lessonId : Nat) (imgTag src fullMatch : String)
    (processed : List RehomedAsset) (imgPath : String)
    (hskip : isSkippedRef src = false)
    (hfind : (candidatePaths unquote htmlDir extractedPath src).find? isFile =
      some imgPath)
    (hcopy : copyOk imgPath = true) :
    replace_image isFile unquote md5hex copyOk htmlDir extractedPath
      uploadBaseDir courseId lessonId imgTag src processed =
      (subSrcAttr imgTag (publicImageUrl courseId lessonId
        ((pathSplitExt (pathBaseName imgPath)).1 ++ "_" ++
         String.mk ((md5hex imgPath).data.take 8) ++
         (if strLower (pathSplitExt (pathBaseName imgPath)).2 ∈
            known_image_extensions
          then strLower (pathSplitExt (pathBaseName imgPath)).2 else ".bin"))),
       processed ++ [⟨imgPath, src,
         imagesDir uploadBaseDir courseId lessonId ++ "/" ++
           ((pathSplitExt (pathBaseName imgPath)).1 ++ "_" ++
            String.mk ((md5hex imgPath).data.take 8) ++
            (if strLower (pathSplitExt (pathBaseName imgPath)).2 ∈
               known_image_extensions
             then strLower (pathSplitExt (pathBaseName imgPath)).2 else ".bin")),
         publicImageUrl courseId lessonId
           ((pathSplitExt (pathBaseName imgPath)).1 ++ "_" ++
            String.mk ((md5hex imgPath).data.take 8) ++
            (if strLower (pathSplitExt (pathBaseName imgPath)).2 ∈
               known_image_extensions
             then strLower (pathSplitExt (pathBaseName imgPath)).2 else ".bin")),
         (pathSplitExt (pathBaseName imgPath)).1 ++ "_" ++
           String.mk ((md5hex imgPath).data.take 8) ++
           (if strLower (pathSplitExt (pathBaseName imgPath)).2 ∈
              known_image_extensions
            then strLower (pathSplitExt (pathBaseName imgPath)).2 else ".bin"),
         false⟩]) ∧
    replace_background isFile unquote md5hex copyOk htmlDir extractedPath
      uploadBaseDir courseId lessonId fullMatch src processed =
      ("background-image: url(\"" ++ publicImageUrl courseId lessonId
        ((pathSplitExt (pathBaseName imgPath)).1 ++ "_bg_" ++
         String.mk ((md5hex imgPath).data.take 8) ++
         (if strLower (pathSplitExt (pathBaseName imgPath)).2 ∈
            known_image_extensions
          then strLower (pathSplitExt (pathBaseName imgPath)).2 else ".bin")) ++
        "\")",
       processed ++ [⟨imgPath, src,
         imagesDir uploadBaseDir courseId lessonId ++ "/" ++
           ((pathSplitExt (pathBaseName imgPath)).1 ++ "_bg_" ++
            String.mk ((md5hex imgPath).data.take 8) ++
            (if strLower (pathSplitExt (pathBaseName imgPath)).2 ∈
               known_image_extensions
             then strLower (pathSplitExt (pathBaseName imgPath)).2 else ".bin")),
         publicImageUrl courseId lessonId
           ((pathSplitExt (pathBaseName imgPath)).1 ++ "_bg_" ++
            String.mk ((md5hex imgPath).data.take 8) ++
            (if strLower (pathSplitExt (pathBaseName imgPath)).2 ∈
               known_image_extensions
             then strLower (pathSplitExt (pathBaseName imgPath)).2 else ".bin")),
         (pathSplitExt (pathBaseName imgPath)).1 ++ "_bg_" ++
           String.mk ((md5hex imgPath).data.take 8) ++
           (if strLower (pathSplitExt (pathBaseName imgPath)).2 ∈
              known_image_extensions
            then strLower (pathSplitExt (pathBaseName imgPath)).2 else ".bin"),
         true⟩]) := by
  constructor
  · simp only [replace_image, hskip, hfind, hcopy, Bool.false_eq_true,
      if_false, if_true]
  · simp only [replace_background, hskip, hfind, hcopy, Bool.false_eq_true,
      if_false, if_true]

theorem c6_rehomed_filename_and_url_witness :
    (replace_image (fun p => p == "r/img/pic.PNG") id (fun _ => "0123abcd9999")
      (fun _ => true) "r" "r" "up" 7 9 "<img src=\"img/pic.PNG\">"
      "img/pic.PNG" []).2 =
      [⟨"r/img/pic.PNG", "img/pic.PNG",
        "up/courses/7/lessons/9/images/pic_0123abcd.png",
        "/uploads/courses/7/lessons/9/images/pic_0123abcd.png",
        "pic_0123abcd.png", false⟩] := by
  have h := (c6_rehomed_filename_and_url (fun p => p == "r/img/pic.PNG") id
    (fun _ => "0123abcd9999") (fun _ => true) "r" "r" "up" 7 9
    "<img src=\"img/pic.PNG\">" "img/pic.PNG"
    "background-image: url(img/pic.PNG)" [] "r/img/pic.PNG"
    (by decide) (by decide) (by decide)).1
  rw [h]
  decide

/-! ### Document-level drivers of extract_and_process_images

`img_pattern` (line 350) is matched case-sensitively with no flags; the
background pattern (line 429) with IGNORECASE.  Each driver performs
`re.sub`-style leftmost, non-overlapping replacement, handing the matched
text to the corresponding handler and threading the `processed_images`
accumulator. -/

/-- Collect, in order, all suffixes after an occurrence of `src=` followed by
a quote, among occurrences starting before the first `>` (the `[^>]*` gap of
the pattern cannot cross a `>`).  Greedy backtracking of `[^>]*` means the
last viable occurrence wins, so candidates are tried in reverse order. -/
def srcEqTails : List Char → List (List Char)
  | [] => []
  | c :: cs =>
    if c = '>' then []
    else
      let rest := srcEqTails cs
      match c :: cs with
      | 's' :: 'r' :: 'c' :: '=' :: q :: tail =>
        if isQuote q then tail :: rest else rest
      | _ => rest

/-- From a position after `src=` + quote: the non-empty body up to the next
quote of either kind, the closing quote, then `[^>]*>`. -/
def tryImgSrcCandidate (tail : List Char) : Option (List Char × List Char) :=
  match tail.takeWhile (fun c => !(isQuote c)) with
  | [] => none
  | body =>
    match tail.dropWhile (fun c => !(isQuote c)) with
    | q :: rest =>
      if isQuote q then
        match splitAtChar '>' rest with
        | some pr => some (body, pr.2)
        | none => none
      else none
    | [] => none

/-- Match `img_pattern` at the head of the input: returns the full matched
tag text, the `src` group, and the remainder. -/
def matchImgTagAt (s : List Char) :
    Option (List Char × List Char × List Char) :=
  match dropLit ['<', 'i', 'm', 'g'] s with
  | none => none
  | some afterName =>
    match firstSome tryImgSrcCandidate (srcEqTails afterName).reverse with
    | none => none
    | some pr => some (s.take (s.length - pr.2.length), pr.1, pr.2)

/-- `re.sub(img_pattern, replace_image, html)` (line 426). -/
def runImgSub
    (handler : String → String → List RehomedAsset → String × List RehomedAsset) :
    Nat → List Char → List RehomedAsset → List Char × List RehomedAsset
  | _, [], acc => ([], acc)
  | 0, s, acc => (s, acc)
  | fuel + 1, c :: cs, acc =>
    match matchImgTagAt (c :: cs) with
    | some t =>
      let r := handler (String.mk t.1) (String.mk t.2.1) acc
      let p := runImgSub handler fuel t.2.2 r.2
      (r.1.data ++ p.1, p.2)
    | none =>
      let p := runImgSub handler fuel cs acc
      (c :: p.1, p.2)

/-- Head of the list is a quote character. -/
def headIsQuote : List Char → Bool
  | [] => false
  | c :: _ => isQuote c

/-- A character allowed inside the `url(...)` group: anything but `)` or a
quote. -/
def bgBodyChar (c : Char) : Bool := !(c = ')' || isQuote c)

/-- Match the background pattern
`background-image:\s*url\(["\']?([^)"\']+)["\']?\)` (case-insensitive) at the
head of the input: full match, url group, remainder. -/
def matchBgAt (s : List Char) : Option (List Char × List Char × List Char) :=
  match dropLitCi "background-image:".data s with
  | none => none
  | some afterColon =>
    match dropLitCi ['u', 'r', 'l', '('] (afterColon.dropWhile isPyWs) with
    | none => none
    | some afterParen =>
      let t1 := if headIsQuote afterParen then afterParen.tail else afterParen
      match t1.takeWhile bgBodyChar with
      | [] => none
      | body =>
        let t2 := t1.dropWhile bgBodyChar
        let t3 := if headIsQuote t2 then t2.tail else t2
        match t3 with
        | ')' :: rest => some (s.take (s.length - rest.length), body, rest)
        | _ => none

/-- `re.sub(bg_pattern, replace_background, html, flags=IGNORECASE)`
(line 496). -/
def runBgSub
    (handler : String → String → List RehomedAsset → String × List RehomedAsset) :
    Nat → List Char → List RehomedAsset → List Char × List RehomedAsset
  | _, [], acc => ([], acc)
  | 0, s, acc => (s, acc)
  | fuel + 1, c :: cs, acc =>
    match matchBgAt (c :: cs) with
    | some t =>
      let r := handler (String.mk t.1) (String.mk t.2.1) acc
      let p := runBgSub handler fuel t.2.2 r.2
      (r.1.data ++ p.1, p.2)
    | none =>
      let p := runBgSub handler fuel cs acc
      (c :: p.1, p.2)

/-- `extract_and_process_images` (scorm_parser.py lines 335-498): the img
pass over the document, then the background pass over its output. -/
def extract_and_process_images (isFile : String → Bool)
    (unquote md5hex : String → String) (copyOk : String → Bool)
    (htmlFilePath htmlContent extractedPath uploadBaseDir : String)
    (courseId lessonId : Nat) : String × List RehomedAsset :=
  let htmlDir := pathParent htmlFilePath
  let p1 := runImgSub
    (replace_image isFile unquote md5hex copyOk htmlDir extractedPath
      uploadBaseDir courseId lessonId)
    htmlContent.data.length htmlContent.data []
  let p2 := runBgSub
    (replace_background isFile unquote md5hex copyOk htmlDir extractedPath
      uploadBaseDir courseId lessonId)
    p1.1.length p1.1 p1.2
  (String.mk p2.1, p2.2)

/-! ## C7/C8: _html_to_markdown (scorm_parser.py lines 534-666)

Each `re.sub` of the source becomes one pass below, in source order.  The
substitution drivers scan left to right, replace the leftmost match, and
continue after the match (replacement text is not rescanned), which is
`re.sub` semantics.  Fuel arguments start at the input length; every
recursive call consumes at least one input character, so fuel never runs out
on the inputs considered. -/

/-- Match `<TAG[^>]*>(.*?)</TAG>` (case-insensitive, DOTALL) at the head:
returns the non-greedy group (text up to the first closing tag) and the
remainder.  `reqWB` is the `\b` after the tag name, present in some source
patterns. -/
def matchPairAt (tag : List Char) (reqWB : Bool) (s : List Char) :
    Option (List Char × List Char) :=
  match dropLitCi ('<' :: tag) s with
  | none => none
  | some afterName =>
    if reqWB && headIsWordChar afterName then none
    else
      match splitAtChar '>' afterName with
      | none => none
      | some pr => splitFirstCi ('<' :: '/' :: (tag ++ ['>'])) pr.2

def subPairGo (tag : List Char) (reqWB : Bool) (pre post : List Char) :
    Nat → List Char → List Char
  | _, [] => []
  | 0, s => s
  | fuel + 1, c :: cs =>
    match matchPairAt tag reqWB (c :: cs) with
    | some pr => pre ++ pr.1 ++ post ++ subPairGo tag reqWB pre post fuel pr.2
    | none => c :: subPairGo tag reqWB pre post fuel cs

/-- One paired-tag substitution pass with prefix/suffix replacement text. -/
def subPair (tag : String) (reqWB : Bool) (pre post : String)
    (s : List Char) : List Char :=
  subPairGo tag.data reqWB pre.data post.data s.length s

/-- Match `<TAG[^>]*>` at the head (self-closing-style patterns). -/
def matchOpenAt (tag : List Char) (reqWB : Bool) (s : List Char) :
    Option (List Char) :=
  match dropLitCi ('<' :: tag) s with
  | none => none
  | some afterName =>
    if reqWB && headIsWordChar afterName then none
    else
      match splitAtChar '>' afterName with
      | none => none
      | some pr => some pr.2

def subOpenGo (tag : List Char) (reqWB : Bool) (repl : List Char) :
    Nat → List Char → List Char
  | _, [] => []
  | 0, s => s
  | fuel + 1, c :: cs =>
    match matchOpenAt tag reqWB (c :: cs) with
    | some rest => repl ++ subOpenGo tag reqWB repl fuel rest
    | none => c :: subOpenGo tag reqWB repl fuel cs

/-- One open-tag substitution pass. -/
def subOpen (tag : String) (reqWB : Bool) (repl : String)
    (s : List Char) : List Char :=
  subOpenGo tag.data reqWB repl.data s.length s

/-- One case-insensitive literal substitution pass (`</table>`, `</tr>`). -/
def subLitCiGo (lit repl : List Char) : Nat → List Char → List Char
  | _, [] => []
  | 0, s => s
  | fuel + 1, c :: cs =>
    match dropLitCi lit (c :: cs) with
    | some rest => repl ++ subLitCiGo lit repl fuel rest
    | none => c :: subLitCiGo lit repl fuel cs

/-- The alternation passes `<ul\b[^>]*>|</ul>` and `<ol\b[^>]*>|</ol>`
(lines 594-595), replacement empty; the left branch is tried first at each
position, as the regex engine does. -/
def subUlOlGo (tag : List Char) : Nat → List Char → List Char
  | _, [] => []
  | 0, s => s
  | fuel + 1, c :: cs =>
    match matchOpenAt tag true (c :: cs) with
    | some rest => subUlOlGo tag fuel rest
    | none =>
      match dropLitCi ('<' :: '/' :: (tag ++ ['>'])) (c :: cs) with
      | some rest => subUlOlGo tag fuel rest
      | none => c :: subUlOlGo tag fuel cs

/-- Match a `<script\b...</script>`-style block (lines 538-541): from the tag
name (word boundary required) through the first closing tag; the
`[^<]*(?:(?!<\/tag>)<[^<]*)*` core consumes exactly the text up to that first
closing tag. -/
def matchBlockAt (tag : List Char) (s : List Char) : Option (List Char) :=
  match dropLitCi ('<' :: tag) s with
  | none => none
  | some afterName =>
    if headIsWordChar afterName then none
    else
      match splitFirstCi ('<' :: '/' :: (tag ++ ['>'])) afterName with
      | none => none
      | some pr => some pr.2

def stripBlockGo (tag : List Char) : Nat → List Char → List Char
  | _, [] => []
  | 0, s => s
  | fuel + 1, c :: cs =>
    match matchBlockAt tag (c :: cs) with
    | some rest => stripBlockGo tag fuel rest
    | none => c :: stripBlockGo tag fuel cs

/-- One block-strip pass (`script`, `style`). -/
def stripBlock (tag : String) (s : List Char) : List Char :=
  stripBlockGo tag.data s.length s

/-- Collect suffixes after each occurrence of a literal attribute opener
(e.g. `href="`), case-insensitively, among occurrences starting before the
first `>` — the preceding `[^>]*` gap cannot cross a `>`.  Greedy `[^>]*`
prefers the last occurrence, so callers try the reversed list. -/
def attrTails (attr : List Char) : List Char → List (List Char)
  | [] => []
  | c :: cs =>
    if c = '>' then []
    else
      let rest := attrTails attr cs
      match dropLitCi attr (c :: cs) with
      | some after => after :: rest
      | none => rest

/-- From a position after `href="`: the group up to the closing quote, then
`[^>]*>`, then the non-greedy link text up to the first `</a>`. -/
def tryHrefCandidate (tail : List Char) :
    Option (List Char × List Char × List Char) :=
  match splitAtChar '"' tail with
  | none => none
  | some pr =>
    match splitAtChar '>' pr.2 with
    | none => none
    | some pr2 =>
      match splitFirstCi ['<', '/', 'a', '>'] pr2.2 with
      | none => none
      | some pr3 => some (pr.1, pr3.1, pr3.2)

/-- Match `<a\b[^>]*href="([^"]*)"[^>]*>(.*?)</a>` (IGNORECASE, DOTALL):
(href, text, remainder). -/
def matchAhrefAt (s : List Char) :
    Option (List Char × List Char × List Char) :=
  match dropLitCi ['<', 'a'] s with
  | none => none
  | some afterName =>
    if headIsWordChar afterName then none
    else firstSome tryHrefCandidate (attrTails ['h', 'r', 'e', 'f', '=', '"'] afterName).reverse

/-- The link pass (lines 570-575), replacement `[text](href)`. -/
def subAhrefGo : Nat → List Char → List Char
  | _, [] => []
  | 0, s => s
  | fuel + 1, c :: cs =>
    match matchAhrefAt (c :: cs) with
    | some t =>
      '[' :: (t.2.1 ++ (']' :: '(' :: (t.1 ++ (')' :: subAhrefGo fuel t.2.2))))
    | none => c :: subAhrefGo fuel cs

/-- From a position after `src="`, for the img-with-alt pattern: the src
group, then (rightmost-first) `alt="..."`, then `[^>]*>`. -/
def tryImgAltCandidate (tail : List Char) :
    Option (List Char × List Char × List Char) :=
  match splitAtChar '"' tail with
  | none => none
  | some pr =>
    firstSome (fun t2 =>
      match splitAtChar '"' t2 with
      | none => none
      | some pr2 =>
        match splitAtChar '>' pr2.2 with
        | none => none
        | some pr3 => some (pr.1, pr2.1, pr3.2))
      (attrTails ['a', 'l', 't', '=', '"'] pr.2).reverse

/-- Match `<img\b[^>]*src="([^"]*)"[^>]*alt="([^"]*)"[^>]*>` (IGNORECASE):
(src, alt, remainder). -/
def matchImgAltAt (s : List Char) :
    Option (List Char × List Char × List Char) :=
  match dropLitCi ['<', 'i', 'm', 'g'] s with
  | none => none
  | some afterName =>
    if headIsWordChar afterName then none
    else firstSome tryImgAltCandidate
      (attrTails ['s', 'r', 'c', '=', '"'] afterName).reverse

/-- The img-with-alt pass (lines 578-583), replacement `![alt](src)`. -/
def subImgAltGo : Nat → List Char → List Char
  | _, [] => []
  | 0, s => s
  | fuel + 1, c :: cs =>
    match matchImgAltAt (c :: cs) with
    | some t =>
      '!' :: '[' :: (t.2.1 ++ (']' :: '(' :: (t.1 ++ (')' :: subImgAltGo fuel t.2.2))))
    | none => c :: subImgAltGo fuel cs

/-- From a position after `src="`, for the plain img pattern. -/
def tryImgNoAltCandidate (tail : List Char) :
    Option (List Char × List Char) :=
  match splitAtChar '"' tail with
  | none => none
  | some pr =>
    match splitAtChar '>' pr.2 with
    | none => none
    | some pr2 => some (pr.1, pr2.2)

/-- Match `<img\b[^>]*src="([^"]*)"[^>]*>` (IGNORECASE): (src, remainder). -/
def matchImgNoAltAt (s : List Char) : Option (List Char × List Char) :=
  match dropLitCi ['<', 'i', 'm', 'g'] s with
  | none => none
  | some afterName =>
    if headIsWordChar afterName then none
    else firstSome tryImgNoAltCandidate
      (attrTails ['s', 'r', 'c', '=', '"'] afterName).reverse

/-- The img-without-alt pass (lines 584-589), replacement `![](src)`. -/
def subImgNoAltGo : Nat → List Char → List Char
  | _, [] => []
  | 0, s => s
  | fuel + 1, c :: cs =>
    match matchImgNoAltAt (c :: cs) with
    | some t =>
      '!' :: '[' :: ']' :: '(' :: (t.1 ++ (')' :: subImgNoAltGo fuel t.2))
    | none => c :: subImgNoAltGo fuel cs

/-- The final tag stripping `<[^>]*>` (line 618). -/
def stripTagsGo : Nat → List Char → List Char
  | _, [] => []
  | 0, s => s
  | fuel + 1, c :: cs =>
    if c = '<' then
      match splitAtChar '>' cs with
      | some pr => stripTagsGo fuel pr.2
      | none => c :: stripTagsGo fuel cs
    else c :: stripTagsGo fuel cs

/-- The fixed named-entity table of lines 621-637, in source (= insertion)
order; note `&hellip;` maps to three ASCII dots in the source. -/
def html_entities : List (String × String) :=
  [("&nbsp;", " "), ("&lt;", "<"), ("&gt;", ">"), ("&amp;", "&"),
   ("&quot;", "\""), ("&#39;", "\x27"), ("&apos;", "\x27"),
   ("&copy;", "(c)"), ("&reg;", "(r)"), ("&trade;", "(tm)"),
   ("&mdash;", "—"), ("&ndash;", "–"), ("&hellip;", "..."),
   ("&laquo;", "«"), ("&raquo;", "»")]

/-- `str.replace`: all non-overlapping occurrences, left to right,
case-sensitive. -/
def replaceAllGo (pat repl : List Char) : Nat → List Char → List Char
  | _, [] => []
  | 0, s => s
  | fuel + 1, c :: cs =>
    match dropLit pat (c :: cs) with
    | some rest => repl ++ replaceAllGo pat repl fuel rest
    | none => c :: replaceAllGo pat repl fuel cs

/-- The entity-table loop of lines 639-640. -/
def applyEntityTable (s : List Char) : List Char :=
  html_entities.foldl (fun acc p => replaceAllGo p.1.data p.2.data acc.length acc) s

def digitsToNat (ds : List Char) : Nat :=
  ds.foldl (fun a c => a * 10 + (c.toNat - 48)) 0

def isHexDigitChar (c : Char) : Bool :=
  c.isDigit || ('a' ≤ c && c ≤ 'f') || ('A' ≤ c && c ≤ 'F')

def hexVal (c : Char) : Nat :=
  if c.isDigit then c.toNat - 48
  else if 'a' ≤ c && c ≤ 'f' then c.toNat - 87
  else c.toNat - 55

def hexToNat (ds : List Char) : Nat :=
  ds.foldl (fun a c => a * 16 + hexVal c) 0

/-- Python `chr(n)` succeeds for n up to 0x10FFFF.  Surrogate code points
(D800-DFFF) are accepted by `chr` but are not Unicode scalar values and have
no Lean Char; the model leaves those entities undecoded, a divergence
confined to surrogates. -/
def isValidCodePoint (n : Nat) : Bool :=
  decide (n < 0xd800) || (decide (0xe000 ≤ n) && decide (n ≤ 0x10ffff))

/-- Match `&#(\d+);` at the head (ASCII digits; value, original text,
remainder). -/
def matchDecEntAt : List Char → Option (Nat × List Char × List Char)
  | '&' :: '#' :: rest =>
    (match rest.takeWhile Char.isDigit with
     | [] => none
     | ds =>
       match rest.dropWhile Char.isDigit with
       | ';' :: rest2 => some (digitsToNat ds, '&' :: '#' :: (ds ++ [';']), rest2)
       | _ => none)
  | _ => none

/-- The decimal-entity pass of lines 643-647 and 655: `chr` of the value,
original text kept when `chr` would fail. -/
def subDecEntGo : Nat → List Char → List Char
  | _, [] => []
  | 0, s => s
  | fuel + 1, c :: cs =>
    match matchDecEntAt (c :: cs) with
    | some t =>
      (if isValidCodePoint t.1 then [Char.ofNat t.1] else t.2.1) ++
        subDecEntGo fuel t.2.2
    | none => c :: subDecEntGo fuel cs

/-- Match `&#x([0-9a-fA-F]+);` at the head (the `x` is lowercase in the
source pattern). -/
def matchHexEntAt : List Char → Option (Nat × List Char × List Char)
  | '&' :: '#' :: 'x' :: rest =>
    (match rest.takeWhile isHexDigitChar with
     | [] => none
     | ds =>
       match rest.dropWhile isHexDigitChar with
       | ';' :: rest2 =>
         some (hexToNat ds, '&' :: '#' :: 'x' :: (ds ++ [';']), rest2)
       | _ => none)
  | _ => none

/-- The hexadecimal-entity pass of lines 649-653 and 656. -/
def subHexEntGo : Nat → List Char → List Char
  | _, [] => []
  | 0, s => s
  | fuel + 1, c :: cs =>
    match matchHexEntAt (c :: cs) with
    | some t =>
      (if isValidCodePoint t.1 then [Char.ofNat t.1] else t.2.1) ++
        subHexEntGo fuel t.2.2
    | none => c :: subHexEntGo fuel cs

/-- `[ \t]+ → " "` (line 659). -/
def collapseSpacesGo (prevSp : Bool) : List Char → List Char
  | [] => []
  | c :: cs =>
    if c = ' ' || c = '\t' then
      if prevSp then collapseSpacesGo true cs
      else ' ' :: collapseSpacesGo true cs
    else c :: collapseSpacesGo false cs

/-- `\n[ \t]+\n → "\n\n"` (line 660). -/
def subNlSpNlGo : Nat → List Char → List Char
  | _, [] => []
  | 0, s => s
  | fuel + 1, c :: cs =>
    if c = '\n' then
      match cs.takeWhile (fun d => d = ' ' || d = '\t') with
      | [] => c :: subNlSpNlGo fuel cs
      | _ :: _ =>
        match cs.dropWhile (fun d => d = ' ' || d = '\t') with
        | '\n' :: rest => '\n' :: '\n' :: subNlSpNlGo fuel rest
        | _ => c :: subNlSpNlGo fuel cs
    else c :: subNlSpNlGo fuel cs

/-- Suffix strictly after the last newline of the list, when one exists. -/
def afterLastNl : List Char → Option (List Char)
  | [] => none
  | c :: cs =>
    match afterLastNl cs with
    | some r => some r
    | none => if c = '\n' then some cs else none

/-- `\n\s*\n → "\n\n"` (line 661): from a newline, the greedy whitespace run
must end at its last newline for the trailing `\n` of the pattern to match. -/
def subBlankRunsGo : Nat → List Char → List Char
  | _, [] => []
  | 0, s => s
  | fuel + 1, c :: cs =>
    if c = '\n' then
      match afterLastNl (cs.takeWhile isPyWs) with
      | some tailInRun =>
        '\n' :: '\n' :: subBlankRunsGo fuel (tailInRun ++ cs.dropWhile isPyWs)
      | none => c :: subBlankRunsGo fuel cs
    else c :: subBlankRunsGo fuel cs

/-- `str.strip()` (line 664), ASCII whitespace. -/
def pyStrip (s : List Char) : List Char :=
  ((s.dropWhile isPyWs).reverse.dropWhile isPyWs).reverse

/-- The heading replacement prefix `"#" * i + " "` (line 548). -/
def heading_pre (i : Nat) : String :=
  String.mk (List.replicate i '#' ++ [' '])

/-- `_html_to_markdown` (scorm_parser.py lines 534-666): every `re.sub` and
`str.replace` of the source, in source order. -/
def html_to_markdown (html : String) : String :=
  let cs := html.data
  let cs := stripBlock "script" cs
  let cs := stripBlock "style" cs
  let cs := subPair "h6" false (heading_pre 6) "\n\n" cs
  let cs := subPair "h5" false (heading_pre 5) "\n\n" cs
  let cs := subPair "h4" false (heading_pre 4) "\n\n" cs
  let cs := subPair "h3" false (heading_pre 3) "\n\n" cs
  let cs := subPair "h2" false (heading_pre 2) "\n\n" cs
  let cs := subPair "h1" false (heading_pre 1) "\n\n" cs
  let cs := subPair "b" true "**" "**" cs
  let cs := subPair "strong" true "**" "**" cs
  let cs := subPair "i" true "*" "*" cs
  let cs := subPair "em" true "*" "*" cs
  let cs := subPair "u" true "_" "_" cs
  let cs := subAhrefGo cs.length cs
  let cs := subImgAltGo cs.length cs
  let cs := subImgNoAltGo cs.length cs
  let cs := subPair "li" true "* " "\n" cs
  let cs := subUlOlGo "ul".data cs.length cs
  let cs := subUlOlGo "ol".data cs.length cs
  let cs := subPair "p" true "" "\n\n" cs
  let cs := subOpen "br" true "  \n" cs
  let cs := subOpen "hr" true "\n---\n" cs
  let cs := subOpen "table" false "\n" cs
  let cs := subLitCiGo "</table>".data "\n".data cs.length cs
  let cs := subOpen "tr" false "\n" cs
  let cs := subLitCiGo "</tr>".data [] cs.length cs
  let cs := subPair "td" false "| " " " cs
  let cs := subPair "th" false "| **" "** " cs
  let cs := stripTagsGo cs.length cs
  let cs := applyEntityTable cs
  let cs := subDecEntGo cs.length cs
  let cs := subHexEntGo cs.length cs
  let cs := collapseSpacesGo false cs
  let cs := subNlSpNlGo cs.length cs
  let cs := subBlankRunsGo cs.length cs
  String.mk (pyStrip cs)

/-- C7 (counterexample): the source maps `&hellip;` to three ASCII dots, not
to the horizontal-ellipsis character the claim states. -/
theorem c7_hellip_three_dots :
    html_to_markdown "&hellip;" = "..." ∧ ("..." : String) ≠ "…" := by
  constructor
  · decide
  · decide

/-- C7 (amended): the fixed named-entity table is decoded as written in the
source — with `&hellip;` yielding three ASCII dots `...` — and decimal and
hexadecimal numeric entities decode to their code points, an entity whose
code point is invalid (or whose hex digits are invalid) being left as literal
text: `&#169;` becomes the copyright sign and `&#xZZZ;` stays literal. -/
theorem c7_entity_decoding :
    html_to_markdown "&#169;" = "©" ∧
    html_to_markdown "&#xZZZ;" = "&#xZZZ;" ∧
    html_to_markdown "&#x410;" = "А" ∧
    html_to_markdown "&#1114112;" = "&#1114112;" ∧
    html_to_markdown "&#X41;" = "&#X41;" ∧
    String.mk (applyEntityTable
      ("&nbsp;&lt;&gt;&amp;&quot;&#39;&apos;&copy;&reg;" ++
       "&trade;&mdash;&ndash;&hellip;&laquo;&raquo;").data) =
      " <>&\"\x27\x27(c)(r)(tm)—–...«»" := by
  refine ⟨?_, ?_, ?_, ?_, ?_, ?_⟩ <;> decide

/-- C8: `_html_to_markdown` on `<h1>Title</h1><p>Body <b>bold</b></p>` yields
`# Title`, a blank line, then `Body **bold**`. -/
theorem c8_heading_paragraph_bold :
    html_to_markdown "<h1>Title</h1><p>Body <b>bold</b></p>" =
      "# Title" ++ "\n\n" ++ "Body **bold**" := by
  decide

end Scorm
